import Mathlib

/-!
Shallow embedding of the Sticker Sketchpad display-list / undo-redo model
from `src/src/main.ts`.  The mutable globals (`strokes`, `redoStack`,
`cursor`, `preview`, the current tool settings) become fields of an
explicit `State`; each DOM event handler becomes a pure state transformer.
Rendering is modelled as a replay that emits drawing primitives in device
space, mirroring each class's `display` method.
-/

/-- A point in canvas coordinate space (main.ts `type Point`). -/
structure Point where
  x : ℚ
  y : ℚ
deriving DecidableEq, Repr

/-- Payload of a drawable item in the display list.  `line` embeds
`SimpleMarkerLineWithColor` (color, thickness, opacity, ordered point
path); `sticker` embeds `Sticker` (an emoji plus a single anchored
position); `clearMarker` embeds `ClearMarkerLine`. -/
inductive ItemData
  | line (color : String) (thickness opacity : ℚ) (points : List Point)
  | sticker (emoji : String) (pos : Point)
  | clearMarker
deriving DecidableEq, Repr

/-- A display-list item: the payload together with a creation identity
`id` that stands for JavaScript object identity (each `new` expression in
the source allocates a distinct object). -/
structure Item where
  id : Nat
  data : ItemData
deriving DecidableEq, Repr

/-- `drag(x, y)` dispatched over the three `MarkerLine` classes:
`SimpleMarkerLine.drag` appends a point to the path, `Sticker.drag`
replaces the anchored position, and `ClearMarkerLine.drag` is a no-op. -/
def dragData (x y : ℚ) : ItemData → ItemData
  | .line c t o pts => .line c t o (pts ++ [⟨x, y⟩])
  | .sticker e _ => .sticker e ⟨x, y⟩
  | .clearMarker => .clearMarker

/-- The transient tool preview (`ToolPreview` in main.ts): either a
`MarkerPreview` (position and thickness, drawing the shared `markerImg`)
or an `EmojiPreview` (position and emoji). -/
inductive ToolPreviewM
  | markerPrev (x y thickness : ℚ)
  | emojiPrev (x y : ℚ) (emoji : String)
deriving DecidableEq, Repr

/-- The program state: the display list `strokes`, the `redoStack`, the
`cursor` record, the nullable `preview`, the current tool settings, the
load flag of the shared `markerImg`, and a fresh-identity counter for
object allocation. -/
structure State where
  strokes : List Item
  redoStack : List Item
  cursorActive : Bool
  cursorX : ℚ
  cursorY : ℚ
  preview : Option ToolPreviewM
  currentThickness : ℚ
  currentOpacity : ℚ
  currentEmoji : Option String
  currentColor : String
  imgComplete : Bool
  nextId : Nat
deriving DecidableEq, Repr

/-- `undoBtn.onclick`: early return on an empty display list, otherwise
pop the most recent stroke and push it onto the redo stack. -/
def undoOp (s : State) : State :=
  match s.strokes.getLast? with
  | none => s
  | some it =>
      { s with strokes := s.strokes.dropLast, redoStack := s.redoStack ++ [it] }

/-- `redoBtn.onclick`: early return on an empty redo stack, otherwise pop
from the redo stack and push back onto the display list. -/
def redoOp (s : State) : State :=
  match s.redoStack.getLast? with
  | none => s
  | some it =>
      { s with redoStack := s.redoStack.dropLast, strokes := s.strokes ++ [it] }

/-- The `instanceof ClearMarkerLine` test on an item. -/
def isClearItem (it : Item) : Bool :=
  match it.data with | .clearMarker => true | _ => false

/-- The guard of `clearBtn.onclick`: `strokes[strokes.length - 1]
instanceof ClearMarkerLine` (false on an empty list, where the index read
yields `undefined`). -/
def lastIsClearMarker (l : List Item) : Bool :=
  match l.getLast? with
  | some it => isClearItem it
  | none => false

/-- `clearBtn.onclick`: if the last item is already a `ClearMarkerLine`
return without doing anything (coalescing); otherwise push a fresh clear
marker and empty the redo stack. -/
def clearOp (s : State) : State :=
  if lastIsClearMarker s.strokes then s
  else
    { s with strokes := s.strokes ++ [⟨s.nextId, .clearMarker⟩],
             redoStack := [], nextId := s.nextId + 1 }

/-- The `mousedown` listener: record the cursor, activate drawing, hide
the preview, push a new `Sticker` or a new marker line (built by
`createMarkerLine` from the current color/thickness/opacity) depending on
whether an emoji tool is active, and empty the redo stack. -/
def mousedownOp (x y : ℚ) (s : State) : State :=
  let newItem : Item :=
    match s.currentEmoji with
    | some e => ⟨s.nextId, .sticker e ⟨x, y⟩⟩
    | none =>
        ⟨s.nextId, .line s.currentColor s.currentThickness s.currentOpacity [⟨x, y⟩]⟩
  { s with cursorX := x, cursorY := y, cursorActive := true, preview := none,
           strokes := s.strokes ++ [newItem], redoStack := [],
           nextId := s.nextId + 1 }

/-- The `mousemove` listener.  It first dispatches `tool-moused`, whose
listener sets `preview` to null while drawing and otherwise rebuilds it
from the active tool; then, if the cursor is active and a current stroke
exists, it calls `drag` on the last display-list item and updates the
cursor position. -/
def mousemoveOp (x y : ℚ) (s : State) : State :=
  let s1 : State :=
    { s with preview :=
        if s.cursorActive then none
        else
          some (match s.currentEmoji with
            | some e => .emojiPrev x y e
            | none => .markerPrev x y s.currentThickness) }
  if s1.cursorActive then
    match s1.strokes.getLast? with
    | none => s1
    | some it =>
        { s1 with strokes := s1.strokes.dropLast ++ [⟨it.id, dragData x y it.data⟩],
                  cursorX := x, cursorY := y }
  else s1

/-- The `mouseup` listener: deactivate the cursor. -/
def mouseupOp (s : State) : State := { s with cursorActive := false }

/-- The `mouseleave` listener: deactivate the cursor and hide the preview. -/
def mouseleaveOp (s : State) : State :=
  { s with cursorActive := false, preview := none }

/-- User-interface events that mutate the model. -/
inductive Op
  | mousedown (x y : ℚ)
  | mousemove (x y : ℚ)
  | mouseup
  | mouseleave
  | undo
  | redo
  | clear
  | selectThin
  | selectThick
  | selectHighlight
  | selectSticker (e : String)
  | setColor (c : String)
  | imgLoaded
deriving DecidableEq, Repr

/-- One event-handler invocation (`thinBtn`/`thickBtn`/`highlightBtn`
set thickness 1/4/10 and opacity 1/1/0.3 and deselect the emoji tool;
sticker buttons set `currentEmoji`; the color input sets `currentColor`;
`imgLoaded` models `markerImg.onload` flipping `markerImg.complete`). -/
def step : Op → State → State
  | .mousedown x y, s => mousedownOp x y s
  | .mousemove x y, s => mousemoveOp x y s
  | .mouseup, s => mouseupOp s
  | .mouseleave, s => mouseleaveOp s
  | .undo, s => undoOp s
  | .redo, s => redoOp s
  | .clear, s => clearOp s
  | .selectThin, s =>
      { s with currentThickness := 1, currentOpacity := 1, currentEmoji := none }
  | .selectThick, s =>
      { s with currentThickness := 4, currentOpacity := 1, currentEmoji := none }
  | .selectHighlight, s =>
      { s with currentThickness := 10, currentOpacity := 3/10, currentEmoji := none }
  | .selectSticker e, s => { s with currentEmoji := some e }
  | .setColor c, s => { s with currentColor := c }
  | .imgLoaded, s => { s with imgComplete := true }

/-- The initial program state: empty display list and redo stack, inactive
cursor, no preview, thin marker selected (thickness 1, opacity 1, no
emoji), default color, marker image not yet loaded. -/
def initState : State :=
  { strokes := [], redoStack := [], cursorActive := false, cursorX := 0,
    cursorY := 0, preview := none, currentThickness := 1, currentOpacity := 1,
    currentEmoji := none, currentColor := "#000000", imgComplete := false,
    nextId := 0 }

/-- Run a sequence of events from the initial state. -/
def run (ops : List Op) : State :=
  ops.foldl (fun s op => step op s) initState

/-- Object identities of a list of items. -/
def ids (l : List Item) : List Nat := l.map Item.id

/-- The combined history: the display list followed by the redo stack
read top-to-bottom (reverse push order). -/
def combined (s : State) : List Item :=
  s.strokes ++ s.redoStack.reverse

/-!
Rendering model.  Each `display`/`draw` method is replayed into a list of
device-space drawing primitives.  The drawing attributes each item uses
are fully determined by its own fields plus the ambient context state:
every mutating draw routine (`SimpleMarkerLineWithColor.display`,
`Sticker.display`, both previews) wraps its context mutations in
`save`/`restore`, so the ambient context is unchanged across items and is
threaded through as a constant. A `clearRect` whose device rectangle
covers the whole canvas resets the surface; otherwise it is recorded as an
`erase` primitive.
-/

/-- A device-space drawing primitive. -/
inductive Prim
  | dot (color : String) (alpha : ℚ) (x y r : ℚ)
  | path (color : String) (alpha : ℚ) (width : ℚ) (pts : List Point)
  | segs (color : String) (alpha : ℚ) (width : ℚ) (lines : List (Point × Point))
  | glyph (text : String) (x y size : ℚ) (family : String) (color : String) (alpha : ℚ)
  | image (dx dy w h : ℚ) (alpha : ℚ)
  | erase (x y w h : ℚ)
deriving DecidableEq, Repr

/-- Scale a point uniformly (the `ctx.scale(k, k)` transform). -/
def scalePoint (k : ℚ) (p : Point) : Point := ⟨k * p.x, k * p.y⟩

/-- Scale every geometric quantity of a primitive uniformly. -/
def scalePrim (k : ℚ) : Prim → Prim
  | .dot c a x y r => .dot c a (k * x) (k * y) (k * r)
  | .path c a w pts => .path c a (k * w) (pts.map (scalePoint k))
  | .segs c a w ls => .segs c a (k * w) (ls.map fun pq => (scalePoint k pq.1, scalePoint k pq.2))
  | .glyph t x y sz f c a => .glyph t (k * x) (k * y) (k * sz) f c a
  | .image dx dy w h a => .image (k * dx) (k * dy) (k * w) (k * h) a
  | .erase x y w h => .erase (k * x) (k * y) (k * w) (k * h)

/-- The ambient 2D-context state read by draw routines that do not set it
themselves (`fillText` uses the current fill style and global alpha). -/
structure Ctx where
  fillStyle : String
  alpha : ℚ
deriving DecidableEq, Repr

/-- A freshly created 2D context: black fill, opaque. -/
def defaultCtx : Ctx := ⟨"#000000", 1⟩

/-- Replay one item's `display(ctx)` onto the accumulated surface, on a
canvas of size `W × H` whose context carries a uniform scale `sc`.
`SimpleMarkerLineWithColor.display` draws either a filled dot of radius
`max 1 thickness` (single point) or a stroked polyline in its own color
and opacity; `Sticker.display` fills its emoji in 32px Arial at its
anchored position using the ambient fill style and alpha;
`ClearMarkerLine.display` calls `clearRect(0, 0, W, H)`, which resets the
surface when its device rectangle covers the canvas. -/
def applyItem (sc W H : ℚ) (ctx : Ctx) (surf : List Prim) : ItemData → List Prim
  | .line c t o pts =>
      match pts with
      | [] => surf
      | [p] => surf ++ [.dot c o (sc * p.x) (sc * p.y) (sc * max 1 t)]
      | ps => surf ++ [.path c o (sc * t) (ps.map (scalePoint sc))]
  | .sticker e p =>
      surf ++ [.glyph e (sc * p.x) (sc * p.y) (sc * 32) "Arial" ctx.fillStyle ctx.alpha]
  | .clearMarker =>
      if W ≤ sc * W ∧ H ≤ sc * H then [] else surf ++ [.erase 0 0 (sc * W) (sc * H)]

/-- Replay a whole display list in order onto a blank surface. -/
def renderItems (sc W H : ℚ) (ctx : Ctx) (items : List ItemData) : List Prim :=
  items.foldl (applyItem sc W H ctx) []

/-- A preview's `draw(ctx)`.  `MarkerPreview` draws the 32×32 marker image
tip-aligned at the pointer when `markerImg.complete`, otherwise an
asterisk of four stroked segments (half-length 16, diagonals scaled by
0.7) in black with line width `max 1 thickness`; both at alpha 0.9.
`EmojiPreview` fills its emoji in 32px Arial at alpha 0.6. -/
def previewPrims (imgComplete : Bool) (ctx : Ctx) : ToolPreviewM → List Prim
  | .markerPrev x y t =>
      if imgComplete then
        [.image (x - 16 + 15) (y - 32 + 0) 32 32 (9/10)]
      else
        [.segs "black" (9/10) (max 1 t)
          [(⟨x + 15, y - 16⟩, ⟨x + 15, y + 16⟩),
           (⟨x + 15 - 16, y⟩, ⟨x + 15 + 16, y⟩),
           (⟨x + 15 - 56/5, y - 56/5⟩, ⟨x + 15 + 56/5, y + 56/5⟩),
           (⟨x + 15 - 56/5, y + 56/5⟩, ⟨x + 15 + 56/5, y - 56/5⟩)]]
  | .emojiPrev x y e => [.glyph e x y 32 "Arial" ctx.fillStyle (6/10)]

/-- The payloads of the display list — its "contents" disregarding object
identity. -/
def strokesData (s : State) : List ItemData := s.strokes.map Item.data

/-- The `drawing-changed` listener: clear the 512×512 canvas, replay every
display-list item in order, then draw the preview on top only when the
cursor is not actively drawing. -/
def renderScene (s : State) : List Prim :=
  let base := renderItems 1 512 512 defaultCtx (strokesData s)
  match s.preview with
  | some pv =>
      if s.cursorActive then base
      else base ++ previewPrims s.imgComplete defaultCtx pv
  | none => base

/-- `exportBtn.onclick`: replay the display list (no preview) onto a fresh
1024×1024 offscreen canvas whose context is scaled by 4. -/
def exportScene (s : State) : List Prim :=
  renderItems 4 1024 1024 defaultCtx (strokesData s)

/-- Length of the maximal run of clear markers at the tail of a list. -/
def trailingClears (l : List Item) : Nat :=
  (l.reverse.takeWhile isClearItem).length

/-- All object identities held by the model: display list, then redo
stack. -/
def allIds (s : State) : List Nat := ids s.strokes ++ ids s.redoStack

/-- Allocation invariant: every held identity is pairwise distinct and
below the fresh counter. -/
def ModelInv (s : State) : Prop :=
  (allIds s).Nodup ∧ ∀ i ∈ allIds s, i < s.nextId

/-! Concrete states used as counterexamples and witnesses. -/

/-- A state with an empty display list but a nonempty redo stack — reached
e.g. by drawing one stroke and undoing it. -/
def stateRedoOnly : State :=
  { initState with redoStack := [⟨0, .sticker "S" ⟨1, 2⟩⟩], nextId := 1 }

/-- Draw, clear, draw again, undo: the display list now ends in a clear
marker while the redo stack is nonempty. -/
def stateCoalesce : State :=
  run [.mousedown 1 1, .clear, .mousedown 2 2, .undo]

/-- One stroke drawn from the initial state. -/
def stateOneLine : State := run [.mousedown 3 4]

/-- A stroke followed by a clear: the display list ends in a clear marker. -/
def stateTailClear : State := run [.mousedown 1 1, .clear]

/-- A sticker tool selected and a sticker just placed (cursor active). -/
def stateSticker : State := run [.selectSticker "S", .mousedown 5 6]

/-- Idle state showing a marker preview, image not yet loaded. -/
def statePrevA : State := { initState with preview := some (.markerPrev 10 10 4) }

/-- Same as `statePrevA` except the marker image has finished loading. -/
def statePrevB : State := { statePrevA with imgComplete := true }

/-- A single pointer-down at (300, 300): its dot lies well inside the live
512×512 canvas but beyond the 256-user-unit region that the scale-4
export canvas can show. -/
def stateDotFar : State := run [.mousedown 300 300]

/-!
Canvas cropping.  A canvas shows only the pixels inside its own `W × H`
device rectangle; primitives recorded outside it are cropped away.  Each
primitive gets a device-space extent — a list of points whose axis-aligned
hull contains everything the primitive inks (stroke widths and the dot
radius expand the hull; a glyph's ink, centred and middle-baselined at its
anchor, is contained in the box of half-side `size`).  A primitive is
dropped from the visible image exactly when that hull misses the canvas
rectangle; a primitive whose hull meets the canvas is kept whole.
-/

/-- The two hull corners contributed by each point of a stroked path of
half-width `d`. -/
def expandPoints (d : ℚ) : List Point → List Point
  | [] => []
  | p :: t => ⟨p.x - d, p.y - d⟩ :: ⟨p.x + d, p.y + d⟩ :: expandPoints d t

/-- The endpoints of a list of segments, flattened. -/
def segPoints : List (Point × Point) → List Point
  | [] => []
  | (a, b) :: t => a :: b :: segPoints t

/-- Device-space extent of a primitive: points whose axis-aligned hull
contains all of its ink. -/
def primExtent : Prim → List Point
  | .dot _ _ x y r => [⟨x - r, y - r⟩, ⟨x + r, y + r⟩]
  | .path _ _ w pts => expandPoints (w / 2) pts
  | .segs _ _ w ls => expandPoints (w / 2) (segPoints ls)
  | .glyph _ x y size _ _ _ => [⟨x - size, y - size⟩, ⟨x + size, y + size⟩]
  | .image dx dy w h _ => [⟨dx, dy⟩, ⟨dx + w, dy + h⟩]
  | .erase x y w h => [⟨x, y⟩, ⟨x + w, y + h⟩]

/-- The axis-aligned hull of `ps` is disjoint from the canvas rectangle
`[0, W] × [0, H]`: every hull point is strictly left of, right of, above
or below it. -/
def offCanvas (W H : ℚ) (ps : List Point) : Bool :=
  ps.all (fun q => q.x < 0) || ps.all (fun q => W < q.x) ||
    ps.all (fun q => q.y < 0) || ps.all (fun q => H < q.y)

/-- A primitive contributes to the visible image of a `W × H` canvas when
it has ink (nonempty extent) and its hull meets the canvas. -/
def primVisible (W H : ℚ) (p : Prim) : Bool :=
  !(primExtent p).isEmpty && !offCanvas W H (primExtent p)

/-- Crop a recorded primitive stream to what a `W × H` canvas shows. -/
def visiblePrims (W H : ℚ) (prims : List Prim) : List Prim :=
  prims.filter (primVisible W H)

/-- The visible content of the live 512×512 canvas. -/
def liveImage (s : State) : List Prim :=
  visiblePrims 512 512 (renderScene s)

/-- The visible content of the exported 1024×1024 canvas. -/
def exportImage (s : State) : List Prim :=
  visiblePrims 1024 1024 (exportScene s)

/-! Helper lemmas about the stack operations. -/

theorem undoOp_nil (s : State) (h : s.strokes = []) : undoOp s = s := by
  simp [undoOp, h]

theorem undoOp_concat (s : State) (l : List Item) (a : Item)
    (h : s.strokes = l ++ [a]) :
    undoOp s = { s with strokes := l, redoStack := s.redoStack ++ [a] } := by
  simp [undoOp, h, List.getLast?_concat, List.dropLast_concat]

theorem redoOp_nil (s : State) (h : s.redoStack = []) : redoOp s = s := by
  simp [redoOp, h]

theorem redoOp_concat (s : State) (r : List Item) (a : Item)
    (h : s.redoStack = r ++ [a]) :
    redoOp s = { s with redoStack := r, strokes := s.strokes ++ [a] } := by
  simp [redoOp, h, List.getLast?_concat, List.dropLast_concat]

theorem lastIsClearMarker_concat (l : List Item) (a : Item) :
    lastIsClearMarker (l ++ [a]) = isClearItem a := by
  simp [lastIsClearMarker, List.getLast?_concat]

theorem clearOp_of_last (s : State) (h : lastIsClearMarker s.strokes = true) :
    clearOp s = s := by
  simp [clearOp, h]

theorem clearOp_append (s : State) (h : lastIsClearMarker s.strokes = false) :
    clearOp s = { s with strokes := s.strokes ++ [⟨s.nextId, .clearMarker⟩],
                         redoStack := [], nextId := s.nextId + 1 } := by
  simp [clearOp, h]

theorem clearOp_last (s : State) : lastIsClearMarker (clearOp s).strokes = true := by
  cases h : lastIsClearMarker s.strokes
  · rw [clearOp_append s h]
    simp [lastIsClearMarker_concat, isClearItem]
  · rw [clearOp_of_last s h, h]

theorem clearOp_idem (s : State) : clearOp (clearOp s) = clearOp s :=
  clearOp_of_last _ (clearOp_last s)

theorem clearOp_iterate (s : State) (m : Nat) : clearOp^[m + 1] s = clearOp s := by
  induction m generalizing s with
  | zero => rfl
  | succ m ih =>
      rw [Function.iterate_succ_apply, ih (clearOp s), clearOp_idem]

theorem trailingClears_of_not_last (l : List Item)
    (h : lastIsClearMarker l = false) : trailingClears l = 0 := by
  rcases List.eq_nil_or_concat' l with rfl | ⟨m, b, rfl⟩
  · rfl
  · rw [lastIsClearMarker_concat] at h
    simp [trailingClears, List.reverse_concat', List.takeWhile_cons, h]

theorem trailingClears_concat_clear (l : List Item) (i : Nat)
    (h : lastIsClearMarker l = false) :
    trailingClears (l ++ [⟨i, .clearMarker⟩]) = 1 := by
  have h0 := trailingClears_of_not_last l h
  unfold trailingClears at h0 ⊢
  rw [List.reverse_concat', List.takeWhile_cons]
  simp [isClearItem, h0]

theorem trailingClears_pos_of_last (l : List Item)
    (h : lastIsClearMarker l = true) : 1 ≤ trailingClears l := by
  rcases List.eq_nil_or_concat' l with rfl | ⟨m, b, rfl⟩
  · simp [lastIsClearMarker] at h
  · rw [lastIsClearMarker_concat] at h
    simp [trailingClears, List.reverse_concat', List.takeWhile_cons, h]

/-! Helper lemmas about rendering under a uniform scale. -/

theorem scalePoint_one (p : Point) : scalePoint 1 p = p := by
  simp [scalePoint]

theorem map_scalePoint_one (pts : List Point) : pts.map (scalePoint 1) = pts := by
  induction pts with
  | nil => rfl
  | cons p t ih => simp [scalePoint, ih]

theorem applyItem_scale (ctx : Ctx) (surf : List Prim) (d : ItemData) :
    applyItem 4 1024 1024 ctx (surf.map (scalePrim 4)) d =
      (applyItem 1 512 512 ctx surf d).map (scalePrim 4) := by
  cases d with
  | line c t o pts =>
      match pts with
      | [] => simp [applyItem]
      | [p] => simp [applyItem, scalePrim]
      | p :: q :: rest => simp [applyItem, scalePrim, map_scalePoint_one, scalePoint_one]
  | sticker e p => simp [applyItem, scalePrim]
  | clearMarker => norm_num [applyItem]

theorem renderItems_fold_scale (items : List ItemData) (surf : List Prim) :
    List.foldl (applyItem 4 1024 1024 defaultCtx) (surf.map (scalePrim 4)) items =
      (List.foldl (applyItem 1 512 512 defaultCtx) surf items).map (scalePrim 4) := by
  induction items generalizing surf with
  | nil => rfl
  | cons d rest ih =>
      simp only [List.foldl_cons]
      rw [applyItem_scale, ih]

/-! Helper lemmas about extents and cropping. -/

theorem expandPoints_scale (d : ℚ) (pts : List Point) :
    expandPoints (4 * d) (pts.map (scalePoint 4)) =
      (expandPoints d pts).map (scalePoint 4) := by
  induction pts with
  | nil => rfl
  | cons p t ih => simp [expandPoints, scalePoint, ih, mul_sub, mul_add]

theorem segPoints_scale (ls : List (Point × Point)) :
    segPoints (ls.map fun pq => (scalePoint 4 pq.1, scalePoint 4 pq.2)) =
      (segPoints ls).map (scalePoint 4) := by
  induction ls with
  | nil => rfl
  | cons pq t ih => simp [segPoints, ih]

theorem primExtent_scale (p : Prim) :
    primExtent (scalePrim 4 p) = (primExtent p).map (scalePoint 4) := by
  cases p with
  | dot c a x y r => simp [scalePrim, primExtent, scalePoint, mul_sub, mul_add]
  | path c a w pts =>
      simp only [scalePrim, primExtent]
      rw [show 4 * w / 2 = 4 * (w / 2) from by ring]
      exact expandPoints_scale (w / 2) pts
  | segs c a w ls =>
      simp only [scalePrim, primExtent]
      rw [segPoints_scale, show 4 * w / 2 = 4 * (w / 2) from by ring]
      exact expandPoints_scale (w / 2) (segPoints ls)
  | glyph t x y sz f c a => simp [scalePrim, primExtent, scalePoint, mul_sub, mul_add]
  | image dx dy w h a => simp [scalePrim, primExtent, scalePoint, mul_sub, mul_add]
  | erase x y w h => simp [scalePrim, primExtent, scalePoint, mul_sub, mul_add]

theorem primVisible_of_bounded (W H b : ℚ) (p : Prim) (hW : b ≤ W) (hH : b ≤ H)
    (hne : primExtent p ≠ [])
    (h : ∀ q ∈ primExtent p, 0 ≤ q.x ∧ q.x ≤ b ∧ 0 ≤ q.y ∧ q.y ≤ b) :
    primVisible W H p = true := by
  obtain ⟨q0, t, hq⟩ : ∃ q0 t, primExtent p = q0 :: t := by
    cases hE : primExtent p with
    | nil => exact absurd hE hne
    | cons a l => exact ⟨a, l, rfl⟩
  have h0 := h q0 (by rw [hq]; exact List.mem_cons_self q0 t)
  have hx0 : ¬(q0.x < 0) := not_lt.mpr h0.1
  have hx1 : ¬(W < q0.x) := not_lt.mpr (le_trans h0.2.1 hW)
  have hy0 : ¬(q0.y < 0) := not_lt.mpr h0.2.2.1
  have hy1 : ¬(H < q0.y) := not_lt.mpr (le_trans h0.2.2.2 hH)
  unfold primVisible offCanvas
  rw [hq]
  simp [List.all_cons, hx0, hx1, hy0, hy1]

/-! Helper lemmas for the allocation invariant. -/

theorem nodup_push_fresh (l r : List Nat) (n : Nat) (hnd : (l ++ r).Nodup)
    (hlt : ∀ i ∈ l ++ r, i < n) :
    (l ++ [n]).Nodup ∧ ∀ i ∈ l ++ [n], i < n + 1 := by
  constructor
  · refine List.nodup_append.mpr ⟨(List.nodup_append.mp hnd).1, List.nodup_singleton n, ?_⟩
    intro a ha hmem
    have := hlt a (List.mem_append_left r ha)
    simp at hmem
    omega
  · intro i hi
    rcases List.mem_append.mp hi with hi | hi
    · have := hlt i (List.mem_append_left r hi); omega
    · simp at hi; omega

theorem perm_rotate_last (x : Nat) (l r : List Nat) :
    List.Perm ((l ++ [x]) ++ r) (l ++ (r ++ [x])) := by
  rw [List.append_assoc]
  exact List.Perm.append_left l List.perm_append_comm

theorem modelInv_init : ModelInv initState := by
  refine ⟨by simp [allIds, ids, initState], by simp [allIds, ids, initState]⟩

theorem allIds_eq (s : State) : allIds s = ids s.strokes ++ ids s.redoStack := rfl

theorem modelInv_mousedown (x y : ℚ) (s : State) (h : ModelInv s) :
    ModelInv (mousedownOp x y s) := by
  obtain ⟨hnd, hlt⟩ := h
  have key := nodup_push_fresh (ids s.strokes) (ids s.redoStack) s.nextId hnd hlt
  cases hE : s.currentEmoji with
  | none =>
      refine ⟨?_, ?_⟩
      · simpa [mousedownOp, hE, allIds, ids] using key.1
      · simpa [mousedownOp, hE, allIds, ids] using key.2
  | some e =>
      refine ⟨?_, ?_⟩
      · simpa [mousedownOp, hE, allIds, ids] using key.1
      · simpa [mousedownOp, hE, allIds, ids] using key.2

theorem modelInv_undo (s : State) (h : ModelInv s) : ModelInv (undoOp s) := by
  obtain ⟨hnd, hlt⟩ := h
  rcases List.eq_nil_or_concat' s.strokes with hs | ⟨l, a, hs⟩
  · rw [undoOp_nil s hs]; exact ⟨hnd, hlt⟩
  · rw [undoOp_concat s l a hs]
    have hperm : List.Perm (allIds s) (ids l ++ (ids s.redoStack ++ [a.id])) := by
      rw [allIds_eq, hs]
      simpa [ids] using perm_rotate_last a.id (ids l) (ids s.redoStack)
    refine ⟨?_, ?_⟩
    · have hn := hperm.nodup hnd
      simpa [allIds, ids] using hn
    · intro i hi
      have hi' : i ∈ allIds s := hperm.mem_iff.mpr (by simpa [allIds, ids] using hi)
      simpa using hlt i hi'

theorem modelInv_redo (s : State) (h : ModelInv s) : ModelInv (redoOp s) := by
  obtain ⟨hnd, hlt⟩ := h
  rcases List.eq_nil_or_concat' s.redoStack with hr | ⟨r, a, hr⟩
  · rw [redoOp_nil s hr]; exact ⟨hnd, hlt⟩
  · rw [redoOp_concat s r a hr]
    have hperm : List.Perm (allIds s) ((ids s.strokes ++ [a.id]) ++ ids r) := by
      rw [allIds_eq, hr]
      simpa [ids] using (perm_rotate_last a.id (ids s.strokes) (ids r)).symm
    refine ⟨?_, ?_⟩
    · have hn := hperm.nodup hnd
      simpa [allIds, ids] using hn
    · intro i hi
      have hi' : i ∈ allIds s := hperm.mem_iff.mpr (by simpa [allIds, ids] using hi)
      simpa using hlt i hi'

theorem modelInv_clear (s : State) (h : ModelInv s) : ModelInv (clearOp s) := by
  obtain ⟨hnd, hlt⟩ := h
  cases hC : lastIsClearMarker s.strokes
  · rw [clearOp_append s hC]
    have key := nodup_push_fresh (ids s.strokes) (ids s.redoStack) s.nextId hnd hlt
    refine ⟨?_, ?_⟩
    · simpa [allIds, ids] using key.1
    · simpa [allIds, ids] using key.2
  · rw [clearOp_of_last s hC]; exact ⟨hnd, hlt⟩

theorem ids_mousemove (x y : ℚ) (s : State) :
    ids (mousemoveOp x y s).strokes = ids s.strokes ∧
    (mousemoveOp x y s).redoStack = s.redoStack ∧
    (mousemoveOp x y s).nextId = s.nextId := by
  rcases List.eq_nil_or_concat' s.strokes with hs | ⟨l, a, hs⟩ <;>
    cases hA : s.cursorActive <;>
      simp [mousemoveOp, hA, hs, ids, List.getLast?_concat, List.dropLast_concat]

theorem modelInv_mousemove (x y : ℚ) (s : State) (h : ModelInv s) :
    ModelInv (mousemoveOp x y s) := by
  obtain ⟨h1, h2, h3⟩ := ids_mousemove x y s
  obtain ⟨hnd, hlt⟩ := h
  constructor
  · rw [allIds_eq, h1, h2]; exact hnd
  · intro i hi
    rw [h3]
    apply hlt
    rw [allIds_eq] at hi
    rw [h1, h2] at hi
    exact hi

theorem modelInv_step (op : Op) (s : State) (h : ModelInv s) : ModelInv (step op s) := by
  cases op with
  | mousedown x y => exact modelInv_mousedown x y s h
  | mousemove x y => exact modelInv_mousemove x y s h
  | mouseup => exact h
  | mouseleave => exact h
  | undo => exact modelInv_undo s h
  | redo => exact modelInv_redo s h
  | clear => exact modelInv_clear s h
  | selectThin => exact h
  | selectThick => exact h
  | selectHighlight => exact h
  | selectSticker e => exact h
  | setColor c => exact h
  | imgLoaded => exact h

theorem modelInv_foldl (ops : List Op) (s : State) (h : ModelInv s) :
    ModelInv (ops.foldl (fun s op => step op s) s) := by
  induction ops generalizing s with
  | nil => exact h
  | cons op rest ih => exact ih (step op s) (modelInv_step op s h)

theorem modelInv_run (ops : List Op) : ModelInv (run ops) :=
  modelInv_foldl ops initState modelInv_init

/-! The claims. -/

/-- C1 (amended): undo followed immediately by redo restores the exact
prior display list, provided the display list is nonempty or the redo
stack is empty.  (When the display list is empty but the redo stack is
not, undo is a no-op while redo still fires, so the display list grows.) -/
theorem undo_redo_roundtrip (s : State)
    (h : s.strokes ≠ [] ∨ s.redoStack = []) :
    (redoOp (undoOp s)).strokes = s.strokes := by
  rcases List.eq_nil_or_concat' s.strokes with hs | ⟨l, a, hs⟩
  · have hr : s.redoStack = [] := by
      rcases h with h | h
      · exact absurd hs h
      · exact h
    rw [undoOp_nil s hs, redoOp_nil s hr]
  · rw [undoOp_concat s l a hs]
    rw [redoOp_concat _ s.redoStack a rfl]
    simp [hs]

/-- C1 witness: the roundtrip at a state holding one drawn stroke. -/
theorem undo_redo_roundtrip_witness :
    stateOneLine.strokes ≠ [] ∧
    (redoOp (undoOp stateOneLine)).strokes = stateOneLine.strokes :=
  ⟨by decide, undo_redo_roundtrip stateOneLine (Or.inl (by decide))⟩

/-- C1 counterexample: with an empty display list and a nonempty redo
stack (a reachable configuration: draw one stroke, undo it), undo is a
no-op but redo re-appends the undone item, so undo-then-redo does not
restore the prior (empty) display list. -/
theorem undo_redo_roundtrip_cex :
    (redoOp (undoOp stateRedoOnly)).strokes ≠ stateRedoOnly.strokes := by
  decide

/-- C2 (amended): a pointer-down always empties the redo stack, and a
clear action empties it provided the last display-list item is not already
a clear marker (a coalesced clear returns early and leaves the redo stack
untouched). -/
theorem drawing_action_empties_redo (s : State) (x y : ℚ) :
    (mousedownOp x y s).redoStack = [] ∧
    (lastIsClearMarker s.strokes = false → (clearOp s).redoStack = []) := by
  constructor
  · rfl
  · intro h
    rw [clearOp_append s h]

/-- C2 witness: pointer-down on a state with pending redo history, and a
non-coalesced clear, both leave the redo stack empty. -/
theorem drawing_action_empties_redo_witness :
    (mousedownOp 7 8 stateRedoOnly).redoStack = [] ∧
    lastIsClearMarker stateOneLine.strokes = false ∧
    (clearOp stateOneLine).redoStack = [] :=
  ⟨(drawing_action_empties_redo stateRedoOnly 7 8).1, by decide,
   (drawing_action_empties_redo stateOneLine 7 8).2 (by decide)⟩

/-- C2 counterexample: after draw, clear, draw, undo, the display list
ends in a clear marker and the redo stack is nonempty; pressing clear
(a drawing action per the claim) leaves the redo stack nonempty. -/
theorem drawing_action_empties_redo_cex :
    lastIsClearMarker stateCoalesce.strokes = true ∧
    stateCoalesce.redoStack ≠ [] ∧
    (clearOp stateCoalesce).redoStack ≠ [] := by
  decide

/-- C3: clear makes the display list end in a clear marker, appending one
fresh clear item unless the list already ends in one; consecutive clears
collapse (clear is idempotent, and any chain of n ≥ 1 clears equals a
single clear), so a tail that held at most one clear marker holds exactly
one afterwards. -/
theorem clear_coalesces (s : State) (n : Nat) (hn : 1 ≤ n) :
    clearOp^[n] s = clearOp s ∧
    ((clearOp s).strokes = s.strokes ++ [⟨s.nextId, .clearMarker⟩] ∨
      (clearOp s).strokes = s.strokes) ∧
    lastIsClearMarker ((clearOp^[n]) s).strokes = true ∧
    (trailingClears s.strokes ≤ 1 →
      trailingClears ((clearOp^[n]) s).strokes = 1) := by
  obtain ⟨m, rfl⟩ : ∃ m, n = m + 1 := ⟨n - 1, by omega⟩
  have hit := clearOp_iterate s m
  refine ⟨hit, ?_, ?_, ?_⟩
  · cases h : lastIsClearMarker s.strokes
    · left
      rw [clearOp_append s h]
    · right
      rw [clearOp_of_last s h]
  · rw [hit]
    exact clearOp_last s
  · intro hle
    rw [hit]
    cases h : lastIsClearMarker s.strokes
    · rw [clearOp_append s h]
      exact trailingClears_concat_clear s.strokes s.nextId h
    · rw [clearOp_of_last s h]
      have h1 := trailingClears_pos_of_last s.strokes h
      omega

/-- C3 witness: three consecutive clears on a one-stroke state equal a
single clear and leave exactly one clear marker at the tail. -/
theorem clear_coalesces_witness :
    (1 : Nat) ≤ 3 ∧
    clearOp^[3] stateOneLine = clearOp stateOneLine ∧
    trailingClears stateOneLine.strokes ≤ 1 ∧
    trailingClears ((clearOp^[3]) stateOneLine).strokes = 1 :=
  ⟨by decide, (clear_coalesces stateOneLine 3 (by decide)).1, by decide,
   (clear_coalesces stateOneLine 3 (by decide)).2.2.2 (by decide)⟩

/-- C4: when the display list already ends in a clear marker, the clear
action leaves the entire state unchanged — in particular the redo stack
is not emptied. -/
theorem coalesced_clear_noop (s : State)
    (h : lastIsClearMarker s.strokes = true) : clearOp s = s :=
  clearOp_of_last s h

/-- C4 witness: clear after a stroke-then-clear history changes nothing. -/
theorem coalesced_clear_noop_witness :
    lastIsClearMarker stateTailClear.strokes = true ∧
    clearOp stateTailClear = stateTailClear :=
  ⟨by decide, coalesced_clear_noop stateTailClear (by decide)⟩

/-- C5: undo on an empty display list and redo on an empty redo stack
each leave the whole state — in particular both the display list and the
redo stack — unchanged. -/
theorem empty_undo_redo_noop (s : State) :
    (s.strokes = [] → undoOp s = s) ∧ (s.redoStack = [] → redoOp s = s) :=
  ⟨fun h => undoOp_nil s h, fun h => redoOp_nil s h⟩

/-- C5 witness: both no-ops at the initial state. -/
theorem empty_undo_redo_noop_witness :
    initState.strokes = [] ∧ undoOp initState = initState ∧
    initState.redoStack = [] ∧ redoOp initState = initState :=
  ⟨rfl, (empty_undo_redo_noop initState).1 rfl, rfl,
   (empty_undo_redo_noop initState).2 rfl⟩

/-- C6: in every state reachable from the initial state, no item identity
occurs in both the display list and the redo stack. -/
theorem strokes_redo_disjoint (ops : List Op) (i : Nat)
    (h : i ∈ ids (run ops).strokes) : i ∉ ids (run ops).redoStack := by
  have hinv := modelInv_run ops
  have hnd : (ids (run ops).strokes ++ ids (run ops).redoStack).Nodup := hinv.1
  exact (List.nodup_append.mp hnd).2.2 h

/-- C6 witness: after drawing, undoing and redoing one stroke, the item
is in the display list and not in the redo stack. -/
theorem strokes_redo_disjoint_witness :
    0 ∈ ids (run [.mousedown 1 2, .undo, .redo]).strokes ∧
    0 ∉ ids (run [.mousedown 1 2, .undo, .redo]).redoStack :=
  ⟨by decide, strokes_redo_disjoint [.mousedown 1 2, .undo, .redo] 0 (by decide)⟩

/-- C7 (amended): the redraw output is a function of the display-list
contents, the preview, the active flag and the marker image's load flag:
two states agreeing on those render identically — no other state (redo
stack, tool selection, color) affects the output.  (The load flag must be
added: an identical marker preview rasterizes differently once the marker
image finishes loading.) -/
theorem render_pure_of_contents (s1 s2 : State)
    (hs : strokesData s1 = strokesData s2) (hp : s1.preview = s2.preview)
    (h1 : s1.cursorActive = false) (h2 : s2.cursorActive = false)
    (hi : s1.imgComplete = s2.imgComplete) :
    renderScene s1 = renderScene s2 := by
  unfold renderScene
  rw [hs, hp, h1, h2, hi]

/-- C7 witness: a state with pending redo history and a different color
selection renders the same as the initial state. -/
theorem render_pure_of_contents_witness :
    renderScene stateRedoOnly = renderScene initState :=
  render_pure_of_contents stateRedoOnly initState (by decide) (by decide)
    (by decide) (by decide) (by decide)

/-- C7 counterexample: two states with identical display-list contents,
identical preview and both idle render differently, because the marker
image's load flag — hidden state beyond the display list and the preview —
changes what the preview draws. -/
theorem render_pure_of_contents_cex :
    strokesData statePrevA = strokesData statePrevB ∧
    statePrevA.preview = statePrevB.preview ∧
    statePrevA.cursorActive = false ∧ statePrevB.cursorActive = false ∧
    renderScene statePrevA ≠ renderScene statePrevB := by
  decide

/-- C8 (amended): export replays exactly the same items in the same order
with the same per-item draw semantics at the fixed scale factor 4 — the
recorded primitive streams agree up to scaling — but the exported image
crops content beyond 256 user units: at scale 4 the 1024×1024 export
canvas shows only the [0, 256]² user region, while the live 512×512
canvas shows [0, 512]².  When every rendered primitive lies within the
[0, 256]² region, the visible export image equals the visible live image
up to the scale factor; in general it does not. -/
theorem export_matches_live (s : State) :
    exportScene s = (renderScene { s with preview := none }).map (scalePrim 4) ∧
    ((∀ p ∈ renderScene { s with preview := none }, primExtent p ≠ [] ∧
        ∀ q ∈ primExtent p, 0 ≤ q.x ∧ q.x ≤ 256 ∧ 0 ≤ q.y ∧ q.y ≤ 256) →
      exportImage s = (liveImage { s with preview := none }).map (scalePrim 4)) := by
  have hstream :
      exportScene s = (renderScene { s with preview := none }).map (scalePrim 4) := by
    have h := renderItems_fold_scale (strokesData s) []
    simpa [exportScene, renderScene, renderItems, strokesData] using h
  refine ⟨hstream, ?_⟩
  intro h
  unfold exportImage liveImage visiblePrims
  rw [hstream, List.filter_map]
  have hlive :
      (renderScene { s with preview := none }).filter (primVisible 512 512) =
        renderScene { s with preview := none } := by
    rw [List.filter_eq_self]
    intro p hp
    exact primVisible_of_bounded 512 512 256 p (by norm_num) (by norm_num)
      (h p hp).1 (h p hp).2
  have hexp :
      (renderScene { s with preview := none }).filter
          (primVisible 1024 1024 ∘ scalePrim 4) =
        renderScene { s with preview := none } := by
    rw [List.filter_eq_self]
    intro p hp
    have hb := h p hp
    show primVisible 1024 1024 (scalePrim 4 p) = true
    apply primVisible_of_bounded 1024 1024 1024 _ le_rfl le_rfl
    · rw [primExtent_scale]
      simpa using hb.1
    · rw [primExtent_scale]
      intro q hq
      obtain ⟨q0, hq0, rfl⟩ := List.mem_map.mp hq
      obtain ⟨ha, hc, hd, he⟩ := hb.2 q0 hq0
      have : 0 ≤ 4 * q0.x ∧ 4 * q0.x ≤ 1024 ∧ 0 ≤ 4 * q0.y ∧ 4 * q0.y ≤ 1024 :=
        ⟨by linarith, by linarith, by linarith, by linarith⟩
      exact this
  rw [hlive, hexp]

/-- C8 witness: for a one-stroke state whose content lies inside the
256-unit region, the exported image is the live image scaled by 4. -/
theorem export_matches_live_witness :
    exportImage stateOneLine =
      (liveImage { stateOneLine with preview := none }).map (scalePrim 4) :=
  (export_matches_live stateOneLine).2 (by
    intro p hp
    norm_num [stateOneLine, run, step, mousedownOp, initState, renderScene,
      renderItems, strokesData, applyItem] at hp
    subst hp
    refine ⟨by simp [primExtent], ?_⟩
    norm_num [primExtent])

/-- C8 counterexample: a dot drawn at (300, 300) is visible on the live
512×512 canvas but lands at device (1200, 1200) on the scale-4 export
canvas, past its 1024-unit edge — it is cropped out of the export, so the
exported image is not the live image up to the resolution scale factor. -/
theorem export_matches_live_cex :
    liveImage stateDotFar ≠ [] ∧
    exportImage stateDotFar = [] ∧
    exportImage stateDotFar ≠ (liveImage stateDotFar).map (scalePrim 4) := by
  have h1 : liveImage stateDotFar = [.dot "#000000" 1 300 300 1] := by
    norm_num [stateDotFar, run, step, mousedownOp, initState, renderScene,
      renderItems, strokesData, applyItem, liveImage, visiblePrims, primVisible,
      primExtent, offCanvas, List.filter]
  have h2 : exportImage stateDotFar = [] := by
    norm_num [stateDotFar, run, step, mousedownOp, initState, exportScene,
      renderItems, strokesData, applyItem, exportImage, visiblePrims, primVisible,
      primExtent, offCanvas, List.filter]
  refine ⟨by rw [h1]; simp, h2, by rw [h1, h2]; simp⟩

/-- C9: undo and redo both preserve the combined history (display list
followed by the reversed redo stack); only the boundary between the two
moves. -/
theorem undo_redo_preserve_history (s : State) :
    combined (undoOp s) = combined s ∧ combined (redoOp s) = combined s := by
  constructor
  · rcases List.eq_nil_or_concat' s.strokes with hs | ⟨l, a, hs⟩
    · rw [undoOp_nil s hs]
    · rw [undoOp_concat s l a hs]
      simp [combined, hs, List.reverse_append]
  · rcases List.eq_nil_or_concat' s.redoStack with hr | ⟨r, a, hr⟩
    · rw [redoOp_nil s hr]
    · rw [redoOp_concat s r a hr]
      simp [combined, hr, List.reverse_append]

/-- C10: a sticker's drag replaces its single anchored position: any
sequence of drags leaves it at the most recent drag position (or its
creation point if never dragged); a mousemove never changes the display
list's length; a mousemove while drawing on a sticker tail item only
repositions that item; and rendering a sticker emits exactly one glyph at
its anchored position. -/
theorem sticker_drag_repositions :
    (∀ (e : String) (p : Point) (ds : List Point),
        List.foldl (fun d q => dragData q.x q.y d) (ItemData.sticker e p) ds =
          ItemData.sticker e (ds.getLastD p)) ∧
    (∀ (s : State) (x y : ℚ),
        ((step (.mousemove x y) s).strokes).length = s.strokes.length) ∧
    (∀ (s : State) (x y : ℚ) (l : List Item) (i : Nat) (e : String) (p : Point),
        s.cursorActive = true → s.strokes = l ++ [⟨i, .sticker e p⟩] →
        (step (.mousemove x y) s).strokes = l ++ [⟨i, .sticker e ⟨x, y⟩⟩]) ∧
    (∀ (sc W H : ℚ) (ctx : Ctx) (surf : List Prim) (e : String) (p : Point),
        applyItem sc W H ctx surf (.sticker e p) =
          surf ++ [.glyph e (sc * p.x) (sc * p.y) (sc * 32) "Arial"
            ctx.fillStyle ctx.alpha]) := by
  refine ⟨?_, ?_, ?_, ?_⟩
  · intro e p ds
    induction ds generalizing p with
    | nil => simp
    | cons q t ih =>
        rw [List.foldl_cons,
          show dragData q.x q.y (ItemData.sticker e p) = ItemData.sticker e q from rfl,
          ih q, List.getLastD_cons]
  · intro s x y
    rcases List.eq_nil_or_concat' s.strokes with hs | ⟨l, a, hs⟩ <;>
      cases hA : s.cursorActive <;>
        simp [step, mousemoveOp, hA, hs, List.getLast?_concat,
          List.dropLast_concat]
  · intro s x y l i e p hA hs
    simp [step, mousemoveOp, hA, hs, List.getLast?_concat,
      List.dropLast_concat, dragData]
  · intro sc W H ctx surf e p
    rfl

/-- C10 witness: dragging a freshly placed sticker to (9, 9) repositions
it without growing the display list. -/
theorem sticker_drag_repositions_witness :
    stateSticker.cursorActive = true ∧
    stateSticker.strokes = [] ++ [⟨0, .sticker "S" ⟨5, 6⟩⟩] ∧
    (step (.mousemove 9 9) stateSticker).strokes =
      [] ++ [⟨0, .sticker "S" ⟨9, 9⟩⟩] :=
  ⟨by decide, by decide,
   sticker_drag_repositions.2.2.1 stateSticker 9 9 [] 0 "S" ⟨5, 6⟩
     (by decide) (by decide)⟩
